import Mathlib

/-!
Verification of the `pdf_to_json.py` PDF-reconstruction pipeline.

The Python source is shallowly embedded: numbers (font sizes, vertical
positions, bounding-box coordinates) are modelled as exact rationals `ℚ`,
Python's banker's rounding `round` as `pyRound`/`pyRound1`, and the ASCII
fragments of `str.strip`, `str.split`, `str.isupper`, `str.isdigit` as
executable functions on `String.data`.  The external collaborators
(pdfplumber's per-page character/image/table output and the optional
Camelot engine) appear as input data: a `PageData` per page and a
`CamelotOutcome` per Camelot call, exactly the information the source
consumes from them.
-/

attribute [local semireducible] Rat.add Rat.mul Rat.inv Rat.sub Rat.ofScientific

/-- Python `round(q)`: round half to even, as applied by the source to
character `top` and `size` values. -/
def pyRound (q : ℚ) : ℤ :=
  let n := q.floor
  if q - n < 1/2 then n
  else if 1/2 < q - n then n + 1
  else if n % 2 = 0 then n else n + 1

/-- Python `round(q, 1)`: round to one decimal place, as applied by
`deduplicate_charts` to bounding-box coordinates. -/
def pyRound1 (q : ℚ) : ℚ :=
  (pyRound (q * 10) : ℚ) / 10

/-- Whitespace for Python `str.strip()` / `str.split()`: space, tab,
newline, carriage return, vertical tab, form feed. -/
def pySpace (c : Char) : Bool :=
  c == ' ' || c == '\t' || c == '\n' || c == '\r' || c.toNat == 11 || c.toNat == 12

/-- ASCII uppercase letter (Python cased-and-uppercase character). -/
def pyIsUpperChar (c : Char) : Bool := 65 ≤ c.toNat && c.toNat ≤ 90

/-- ASCII lowercase letter (Python cased-and-lowercase character). -/
def pyIsLowerChar (c : Char) : Bool := 97 ≤ c.toNat && c.toNat ≤ 122

/-- ASCII digit (Python `str.isdigit` character class). -/
def pyIsDigitChar (c : Char) : Bool := 48 ≤ c.toNat && c.toNat ≤ 57

/-- Python `s.strip()`: remove leading and trailing whitespace. -/
def pyStrip (s : String) : String :=
  String.mk (((s.data.dropWhile pySpace).reverse.dropWhile pySpace).reverse)

/-- Python `s.split()`: maximal nonempty runs of non-whitespace characters. -/
def pyWords (s : String) : List (List Char) :=
  (s.data.foldr
    (fun c acc =>
      if pySpace c then [] :: acc
      else
        match acc with
        | [] => [[c]]
        | w :: ws => (c :: w) :: ws)
    []).filter (fun w => w ≠ [])

/-- Python `s.isupper()`: at least one cased character and no lowercase one. -/
def pyIsUpper (s : String) : Bool :=
  s.data.any pyIsUpperChar && s.data.all (fun c => !pyIsLowerChar c)

/-- One character as reported by the extractor: `{"text": …, "top": …, "size": …}`. -/
structure PChar where
  text : String
  top : ℚ
  size : ℚ
deriving DecidableEq

/-- One image bounding box as reported by the extractor:
`{"x0": …, "top": …, "x1": …, "bottom": …}`. -/
structure ImageBox where
  x0 : ℚ
  top : ℚ
  x1 : ℚ
  bottom : ℚ
deriving DecidableEq

/-- A raw table grid: rows of cell strings. -/
abbrev Grid := List (List String)

/-- One entry of a page's `content` list.  The Python dictionaries carry
only the keys relevant to their `type`; absent keys are `none` here. -/
structure ContentEntry where
  type : String
  sect : Option String
  sub_section : Option String
  text : Option String
  table_data : Option Grid
  description : Option String
  bbox : Option (ℚ × ℚ × ℚ × ℚ)
  top : Option ℚ
deriving DecidableEq

/-- A page of the output document. -/
structure Page where
  page_number : ℕ
  content : List ContentEntry
deriving DecidableEq

/-- The output document: `{"pages": [...]}`. -/
structure Document where
  pages : List Page
deriving DecidableEq

/-- All data the source reads from the primitive extractor for one page:
`page.chars`, `page.images` and `page.extract_tables()`. -/
structure PageData where
  chars : List PChar
  images : List ImageBox
  nativeTables : List Grid
deriving DecidableEq

/-- Outcome of one call into the optional Camelot engine: the module can be
absent (`camelot = None`), the call can raise, or it returns a list of
table grids (`[t.data for t in tables]`). -/
inductive CamelotOutcome where
  | unavailable : CamelotOutcome
  | failure : CamelotOutcome
  | tables : List Grid → CamelotOutcome
deriving DecidableEq

/-- `SECTION_FONT_SIZE = 14`. -/
def SECTION_FONT_SIZE : ℤ := 14

/-- `SUBSECTION_FONT_SIZE = 12`. -/
def SUBSECTION_FONT_SIZE : ℤ := 12

/-- The rounded font size of every character of a line, in character order:
the values `round(ch["size"])` accumulated into the `font_sizes` dict. -/
def roundedSizes (chars : List PChar) : List ℤ :=
  chars.map (fun ch => pyRound ch.size)

/-- The keys of a Python dict built by insertion: distinct values in order
of first occurrence. -/
def dictKeys (l : List ℤ) : List ℤ :=
  l.foldl (fun acc x => if x ∈ acc then acc else acc ++ [x]) []

/-- Python `max(keys, key=f)`: the first key attaining the maximal `f`
value (a later key replaces the current one only on strict increase). -/
def pyMaxBy (f : ℤ → ℕ) : List ℤ → Option ℤ
  | [] => none
  | x :: xs => some (xs.foldl (fun best k => if f best < f k then k else best) x)

/-- `max(font_sizes, key=font_sizes.get)`: `none` exactly when the
character list (hence the dict) is empty. -/
def dominant_size (chars : List PChar) : Option ℤ :=
  pyMaxBy (fun s => (roundedSizes chars).count s) (dictKeys (roundedSizes chars))

/-- `identify_text_role(chars)` from the source. -/
def identify_text_role (chars : List PChar) : String :=
  if chars.isEmpty then "paragraph"
  else
    match dominant_size chars with
    | none => "paragraph"
    | some d =>
      if d ≥ SECTION_FONT_SIZE then "section"
      else if d ≥ SUBSECTION_FONT_SIZE then "sub_section"
      else "paragraph"

/-- `is_number_line(text)` from the source: strip spaces, hyphens, periods
and percent signs, then Python `isdigit` (nonempty and all digits). -/
def is_number_line (text : String) : Bool :=
  let clean := text.data.filter (fun c => !(c == ' ' || c == '-' || c == '.' || c == '%'))
  !clean.isEmpty && clean.all pyIsDigitChar

/-- The dedup key of a chart entry: its bounding box rounded to one decimal
place per coordinate.  Only chart entries (which always carry a `bbox`) are
ever passed to `deduplicate_charts`; Python would raise a `KeyError` on a
`bbox`-less dict, so the `none` branch is never exercised by the pipeline. -/
def chartKey (e : ContentEntry) : ℚ × ℚ × ℚ × ℚ :=
  match e.bbox with
  | some (a, b, c, d) => (pyRound1 a, pyRound1 b, pyRound1 c, pyRound1 d)
  | none => (0, 0, 0, 0)

/-- `deduplicate_charts(charts)` from the source: a fold carrying the `seen`
set of rounded bounding boxes and the `unique` output list. -/
def deduplicate_charts (charts : List ContentEntry) : List ContentEntry :=
  (charts.foldl
    (fun (acc : List (ℚ × ℚ × ℚ × ℚ) × List ContentEntry) ch =>
      if chartKey ch ∈ acc.1 then acc
      else (chartKey ch :: acc.1, acc.2 ++ [ch]))
    ([], [])).2

/-- Specification-side restatement of chart deduplication, written after the
spec's words: keep the first occurrence of each rounded bounding box,
dropping every later candidate with the same key.  `seen` holds the keys
already kept. -/
def keepFirstCharts (seen : List (ℚ × ℚ × ℚ × ℚ)) : List ContentEntry → List ContentEntry
  | [] => []
  | c :: cs =>
    if chartKey c ∈ seen then keepFirstCharts seen cs
    else c :: keepFirstCharts (chartKey c :: seen) cs

/-- `extract_tables_with_camelot`, as a function of the engine-call outcome:
absence of the module and any raised exception both give `[]`. -/
def extract_tables_with_camelot : CamelotOutcome → List Grid
  | .unavailable => []
  | .failure => []
  | .tables ts => ts

/-- The acceptance test for a native grid:
`tbl and any(any(cell for cell in row) for row in tbl)`. -/
def gridAccepted (tbl : Grid) : Bool :=
  !tbl.isEmpty && tbl.any (fun row => row.any (fun cell => !cell.isEmpty))

/-- A paragraph entry as built in the line loop of `parse_pdf`. -/
def paragraphEntry (sec sub : Option String) (text : String) (top : ℤ) : ContentEntry :=
  { type := "paragraph", sect := sec, sub_section := sub, text := some text,
    table_data := none, description := none, bbox := none, top := some (top : ℚ) }

/-- A table entry as built in `parse_pdf` (`"top": None`). -/
def tableEntry (sec sub : Option String) (tbl : Grid) : ContentEntry :=
  { type := "table", sect := sec, sub_section := sub, text := none,
    table_data := some tbl, description := none, bbox := none, top := none }

/-- A chart entry as built in `parse_pdf` from one image box. -/
def chartEntry (sec sub : Option String) (page_num : ℕ) (img : ImageBox) : ContentEntry :=
  { type := "chart", sect := sec, sub_section := sub, text := none,
    table_data := none,
    description := some ("Chart or image on page " ++ toString page_num),
    bbox := some (img.x0, img.top, img.x1, img.bottom),
    top := some img.top }

/-- The text of a line: `"".join(c["text"] for c in char_list).strip()`. -/
def lineText (char_list : List PChar) : String :=
  pyStrip (String.join (char_list.map PChar.text))

/-- The mutable state threaded through the line loop of `parse_pdf`.
`previous_entry` of the source is the last element of `page_content`: it is
set exactly when an entry is appended, and it is mutated in place, so it is
non-`None` precisely when `page_content` is nonempty. -/
structure LineState where
  current_section : Option String
  current_sub_section : Option String
  page_content : List ContentEntry
deriving DecidableEq

/-- State at the start of every page. -/
def initLineState : LineState :=
  { current_section := none, current_sub_section := none, page_content := [] }

/-- `previous_entry["text"] += " " + line_text`: extend the text of the last
appended entry (always a paragraph carrying a `text` key). -/
def appendToLastText : List ContentEntry → String → List ContentEntry
  | [], _ => []
  | [e], t => [{ e with text := some (e.text.getD "" ++ " " ++ t) }]
  | e :: e2 :: es, t => e :: appendToLastText (e2 :: es) t

/-- The `current_section` value after one line: a `"section"` line installs
its own text, every other role keeps the previous value. -/
def lineSec (st : LineState) (line : ℤ × List PChar) : Option String :=
  if identify_text_role line.2 = "section" then some (lineText line.2)
  else st.current_section

/-- The `current_sub_section` value after one line: a `"section"` line
clears it, a `"sub_section"` line installs its own text, a `"paragraph"`
line keeps the previous value. -/
def lineSub (st : LineState) (line : ℤ × List PChar) : Option String :=
  if identify_text_role line.2 = "section" then none
  else if identify_text_role line.2 = "sub_section" then some (lineText line.2)
  else st.current_sub_section

/-- The body of `for top, char_list in sorted_lines` in `parse_pdf`: skip
blank lines, skip short all-uppercase header lines, update the section
state from the role, then either merge a number line into the previous
entry or append a fresh paragraph entry. -/
def processLine (st : LineState) (line : ℤ × List PChar) : LineState :=
  if lineText line.2 = "" then st
  else if pyIsUpper (lineText line.2) = true ∧ (pyWords (lineText line.2)).length ≤ 2
      ∧ (lineText line.2).length < 15 then st
  else if is_number_line (lineText line.2) = true ∧ st.page_content ≠ [] then
    { current_section := lineSec st line, current_sub_section := lineSub st line,
      page_content := appendToLastText st.page_content (lineText line.2) }
  else
    { current_section := lineSec st line, current_sub_section := lineSub st line,
      page_content := st.page_content
        ++ [paragraphEntry (lineSec st line) (lineSub st line) (lineText line.2) line.1] }

/-- The whole line loop. -/
def processLines (st : LineState) (ls : List (ℤ × List PChar)) : LineState :=
  ls.foldl processLine st

/-- The keys of the `lines` dict of `parse_pdf` (`round(ch["top"])` per
character, first-occurrence order), sorted ascending as by
`sorted(lines.items())`. -/
def sortedLineTops (chars : List PChar) : List ℤ :=
  List.insertionSort (fun a b => a ≤ b) (dictKeys (chars.map (fun ch => pyRound ch.top)))

/-- `sorted(lines.items())`: each rounded top in ascending order paired with
the characters whose top rounds to it, in extractor order. -/
def pageLines (chars : List PChar) : List (ℤ × List PChar) :=
  (sortedLineTops chars).map
    (fun t => (t, chars.filter (fun ch => pyRound ch.top == t)))

/-- The table entries appended to a page: Camelot results first; the
primitive extractor's grids (filtered by `gridAccepted`) only when Camelot
produced no table. -/
def pageTableEntries (cam : CamelotOutcome) (native : List Grid)
    (sec sub : Option String) : List ContentEntry :=
  let camelot_tables := extract_tables_with_camelot cam
  camelot_tables.map (tableEntry sec sub)
    ++ (if camelot_tables.isEmpty then (native.filter gridAccepted).map (tableEntry sec sub)
        else [])

/-- A page's `page_content` just before the final sort: paragraphs in line
order, then tables, then deduplicated charts, the latter two built with the
section state left by the line loop. -/
def pageEntriesUnsorted (pd : PageData) (page_num : ℕ) (cam : CamelotOutcome) :
    List ContentEntry :=
  let st := processLines initLineState (pageLines pd.chars)
  st.page_content
    ++ pageTableEntries cam pd.nativeTables st.current_section st.current_sub_section
    ++ deduplicate_charts
        (pd.images.map (chartEntry st.current_section st.current_sub_section page_num))

/-- The sort key of the final ordering:
`x["top"] if isinstance(x.get("top"), (int, float)) else 1e9`. -/
def sortKey (e : ContentEntry) : ℚ :=
  match e.top with
  | some t => t
  | none => 1000000000

/-- The comparison of the final stable sort. -/
def contentLE (a b : ContentEntry) : Prop := sortKey a ≤ sortKey b

instance : DecidableRel contentLE :=
  fun a b => decidable_of_iff (sortKey a ≤ sortKey b) Iff.rfl

instance : IsTotal ContentEntry contentLE := ⟨fun a b => le_total (sortKey a) (sortKey b)⟩

instance : IsTrans ContentEntry contentLE := ⟨fun _ _ _ h1 h2 => le_trans h1 h2⟩

/-- One iteration of `for i, page in enumerate(pdf.pages)`: Python's
`sorted` is a stable sort, modelled by insertion sort on `contentLE`. -/
def parsePage (pd : PageData) (page_num : ℕ) (cam : CamelotOutcome) : Page :=
  { page_number := page_num,
    content := List.insertionSort contentLE (pageEntriesUnsorted pd page_num cam) }

/-- The file system and extractor world `parse_pdf` runs against:
whether a path exists, the pages pdfplumber yields for it, and the outcome
of each Camelot call `(pdf_path, page_number)`. -/
structure FS where
  pathExists : String → Bool
  pdfPages : String → List PageData
  camelotOutcome : String → ℕ → CamelotOutcome

/-- `parse_pdf(pdf_path)`: the `FileNotFoundError` is raised before any
page is read; otherwise every page is processed in order with 1-based
numbering. -/
def parse_pdf (fs : FS) (pdf_path : String) : Except String Document :=
  if fs.pathExists pdf_path = false then
    .error ("File not found: " ++ pdf_path)
  else
    .ok (Document.mk
      ((fs.pdfPages pdf_path).enum.map
        (fun ip => parsePage ip.2 (ip.1 + 1) (fs.camelotOutcome pdf_path (ip.1 + 1)))))

/-- `main()` after argument parsing: on success the document is written to
the output path; on any raised failure a message is printed and nothing is
written.  The result is the printed messages and the written file, if any. -/
def run_main (fs : FS) (input_pdf output_json : String) :
    List String × Option (String × Document) :=
  match parse_pdf fs input_pdf with
  | .ok doc =>
    (["Parsing '" ++ input_pdf ++ "'...",
      "Extracted content saved to '" ++ output_json ++ "'"],
     some (output_json, doc))
  | .error e =>
    (["Parsing '" ++ input_pdf ++ "'...", "Error: " ++ e], none)

/-- Characters spelling a string, one glyph per character, all at one
vertical position and font size (used for concrete inputs). -/
def strChars (s : String) (top size : ℚ) : List PChar :=
  s.data.map (fun c => { text := String.mk [c], top := top, size := size })

/-! ### Helper lemmas: Python `max(keys, key=f)` and dict key order -/

lemma pyFoldMax_mem (f : ℤ → ℕ) (xs : List ℤ) (x : ℤ) :
    xs.foldl (fun best k => if f best < f k then k else best) x ∈ x :: xs := by
  induction xs generalizing x with
  | nil => simp
  | cons a xs ih =>
    simp only [List.foldl_cons]
    by_cases h : f x < f a
    · rw [if_pos h]
      exact List.mem_cons_of_mem _ (ih a)
    · rw [if_neg h]
      rcases List.mem_cons.mp (ih x) with h3 | h3
      · exact List.mem_cons.mpr (Or.inl h3)
      · exact List.mem_cons_of_mem _ (List.mem_cons_of_mem a h3)

lemma pyFoldMax_le (f : ℤ → ℕ) (xs : List ℤ) (x : ℤ) :
    ∀ y ∈ x :: xs, f y ≤ f (xs.foldl (fun best k => if f best < f k then k else best) x) := by
  induction xs generalizing x with
  | nil =>
    intro y hy
    rcases List.mem_cons.mp hy with h | h
    · exact h ▸ le_refl _
    · exact absurd h (List.not_mem_nil y)
  | cons a xs ih =>
    intro y hy
    simp only [List.foldl_cons]
    have hx : f x ≤ f (if f x < f a then a else x) := by
      by_cases h : f x < f a
      · rw [if_pos h]; exact le_of_lt h
      · rw [if_neg h]
    have ha : f a ≤ f (if f x < f a then a else x) := by
      by_cases h : f x < f a
      · rw [if_pos h]
      · rw [if_neg h]; exact le_of_not_lt h
    rcases List.mem_cons.mp hy with h1 | h1
    · subst h1
      exact le_trans hx (ih _ _ (List.mem_cons_self _ _))
    · rcases List.mem_cons.mp h1 with h2 | h2
      · subst h2
        exact le_trans ha (ih _ _ (List.mem_cons_self _ _))
      · exact ih _ _ (List.mem_cons_of_mem _ h2)

lemma dictKeys_foldl_mem (l : List ℤ) :
    ∀ (acc : List ℤ) (x : ℤ),
      (x ∈ l.foldl (fun acc y => if y ∈ acc then acc else acc ++ [y]) acc ↔ x ∈ acc ∨ x ∈ l) := by
  induction l with
  | nil => intro acc x; simp
  | cons a l ih =>
    intro acc x
    simp only [List.foldl_cons]
    by_cases h : a ∈ acc
    · rw [if_pos h, ih]
      have hxa : x = a → x ∈ acc := fun he => he ▸ h
      constructor
      · rintro (h1 | h1)
        · exact Or.inl h1
        · exact Or.inr (List.mem_cons_of_mem a h1)
      · rintro (h1 | h1)
        · exact Or.inl h1
        · rcases List.mem_cons.mp h1 with h2 | h2
          · exact Or.inl (hxa h2)
          · exact Or.inr h2
    · rw [if_neg h, ih]
      simp only [List.mem_append, List.mem_singleton, List.mem_cons]
      tauto

lemma mem_dictKeys (l : List ℤ) (x : ℤ) : x ∈ dictKeys l ↔ x ∈ l := by
  unfold dictKeys
  rw [dictKeys_foldl_mem]
  simp

lemma dominant_size_spec (chars : List PChar) (h : chars ≠ []) :
    ∃ d : ℤ, dominant_size chars = some d
      ∧ d ∈ roundedSizes chars
      ∧ ∀ s ∈ roundedSizes chars,
          (roundedSizes chars).count s ≤ (roundedSizes chars).count d := by
  have hr : roundedSizes chars ≠ [] := by
    intro hm
    exact h (List.map_eq_nil_iff.mp hm)
  obtain ⟨r, rs, hrl⟩ := List.exists_cons_of_ne_nil hr
  have hrk : r ∈ dictKeys (roundedSizes chars) :=
    (mem_dictKeys _ r).mpr (hrl ▸ List.mem_cons_self r rs)
  have hk : dictKeys (roundedSizes chars) ≠ [] := List.ne_nil_of_mem hrk
  obtain ⟨k, ks, hkl⟩ := List.exists_cons_of_ne_nil hk
  refine ⟨ks.foldl
      (fun best c =>
        if (roundedSizes chars).count best < (roundedSizes chars).count c then c else best) k,
    ?_, ?_, ?_⟩
  · unfold dominant_size pyMaxBy
    rw [hkl]
  · have := pyFoldMax_mem (fun s => (roundedSizes chars).count s) ks k
    have h2 : k :: ks = dictKeys (roundedSizes chars) := hkl.symm
    exact (mem_dictKeys _ _).mp (h2 ▸ this)
  · intro s hs
    have hs2 : s ∈ k :: ks := hkl ▸ (mem_dictKeys _ s).mpr hs
    exact pyFoldMax_le (fun s => (roundedSizes chars).count s) ks k s hs2

/-- C2: for a nonempty character list the role is determined by a dominant
rounded font size — a size of maximal character count among the rounded
sizes — via the fixed thresholds: dominant ≥ 14 gives `"section"`, else
dominant ≥ 12 gives `"sub_section"`, else `"paragraph"`; an empty character
list gives `"paragraph"`. -/
theorem C2_role_from_dominant_size (chars : List PChar) :
    (chars = [] → identify_text_role chars = "paragraph")
    ∧ (chars ≠ [] → ∃ d : ℤ, dominant_size chars = some d
        ∧ d ∈ roundedSizes chars
        ∧ (∀ s ∈ roundedSizes chars,
            (roundedSizes chars).count s ≤ (roundedSizes chars).count d)
        ∧ identify_text_role chars =
            (if d ≥ SECTION_FONT_SIZE then "section"
             else if d ≥ SUBSECTION_FONT_SIZE then "sub_section"
             else "paragraph")) := by
  constructor
  · intro h
    subst h
    rfl
  · intro h
    obtain ⟨d, hd, hmem, hmax⟩ := dominant_size_spec chars h
    have hie : chars.isEmpty = false := by simp [h]
    exact ⟨d, hd, hmem, hmax, by simp [identify_text_role, hie, hd]⟩

/-- Witness for C2 at a concrete five-character line of font size 16. -/
theorem C2_witness :
    ∃ d : ℤ, dominant_size (strChars "Title" 0 16) = some d
      ∧ d ∈ roundedSizes (strChars "Title" 0 16)
      ∧ (∀ s ∈ roundedSizes (strChars "Title" 0 16),
          (roundedSizes (strChars "Title" 0 16)).count s
            ≤ (roundedSizes (strChars "Title" 0 16)).count d)
      ∧ identify_text_role (strChars "Title" 0 16) =
          (if d ≥ SECTION_FONT_SIZE then "section"
           else if d ≥ SUBSECTION_FONT_SIZE then "sub_section"
           else "paragraph") :=
  (C2_role_from_dominant_size (strChars "Title" 0 16)).2 (by decide)

/-- C9 counterexample: two character lists with the same multiset of
rounded font sizes `{12, 14}` but opposite orders classify differently,
because `max(font_sizes, key=font_sizes.get)` breaks the count tie by dict
insertion order (order of first occurrence in the character list). -/
theorem C9_counterexample :
    (↑(roundedSizes [⟨"a", 0, 12⟩, ⟨"b", 0, 14⟩]) : Multiset ℤ)
      = ↑(roundedSizes [⟨"b", 0, 14⟩, ⟨"a", 0, 12⟩])
    ∧ identify_text_role [⟨"a", 0, 12⟩, ⟨"b", 0, 14⟩] = "sub_section"
    ∧ identify_text_role [⟨"b", 0, 14⟩, ⟨"a", 0, 12⟩] = "section"
    ∧ identify_text_role [⟨"a", 0, 12⟩, ⟨"b", 0, 14⟩]
        ≠ identify_text_role [⟨"b", 0, 14⟩, ⟨"a", 0, 12⟩] := by
  refine ⟨by decide, by decide, by decide, by decide⟩

/-- C9 (amended): classification is determined by the multiset of rounded
font sizes whenever the maximal character count is attained by a unique
rounded size; with a count tie the result additionally depends on the
order of first occurrence. -/
theorem C9_dominant_deterministic (l1 l2 : List PChar)
    (hms : (↑(roundedSizes l1) : Multiset ℤ) = ↑(roundedSizes l2))
    (huniq : ∀ a ∈ roundedSizes l1, ∀ b ∈ roundedSizes l1,
      (∀ s ∈ roundedSizes l1, (roundedSizes l1).count s ≤ (roundedSizes l1).count a) →
      (∀ s ∈ roundedSizes l1, (roundedSizes l1).count s ≤ (roundedSizes l1).count b) →
      a = b) :
    dominant_size l1 = dominant_size l2
    ∧ identify_text_role l1 = identify_text_role l2 := by
  have hp : List.Perm (roundedSizes l1) (roundedSizes l2) := Multiset.coe_eq_coe.mp hms
  by_cases h1 : l1 = []
  · subst h1
    have hr2 : roundedSizes l2 = [] := List.perm_nil.mp hp.symm
    have h2 : l2 = [] := List.map_eq_nil_iff.mp hr2
    subst h2
    exact ⟨rfl, rfl⟩
  · have h2 : l2 ≠ [] := by
      intro h
      subst h
      exact h1 (List.map_eq_nil_iff.mp (List.perm_nil.mp hp))
    obtain ⟨d1, hd1, hd1mem, hd1max⟩ := dominant_size_spec l1 h1
    obtain ⟨d2, hd2, hd2mem, hd2max⟩ := dominant_size_spec l2 h2
    have hd2mem1 : d2 ∈ roundedSizes l1 := hp.mem_iff.mpr hd2mem
    have hd2max1 : ∀ s ∈ roundedSizes l1,
        (roundedSizes l1).count s ≤ (roundedSizes l1).count d2 := by
      intro s hs
      calc (roundedSizes l1).count s = (roundedSizes l2).count s := hp.count_eq s
        _ ≤ (roundedSizes l2).count d2 := hd2max s (hp.mem_iff.mp hs)
        _ = (roundedSizes l1).count d2 := (hp.count_eq d2).symm
    have hdeq : d1 = d2 := huniq d1 hd1mem d2 hd2mem1 hd1max hd2max1
    have hie1 : l1.isEmpty = false := by simp [h1]
    have hie2 : l2.isEmpty = false := by simp [h2]
    refine ⟨?_, ?_⟩
    · rw [hd1, hd2, hdeq]
    · simp [identify_text_role, hie1, hie2, hd1, hd2, hdeq]

/-- Witness for C9: three characters of size 12 and one of size 14, in two
different orders; the count maximum 3 is attained only by size 12, and both
orders classify as `"sub_section"`. -/
theorem C9_witness :
    dominant_size (strChars "abc" 0 12 ++ strChars "X" 0 14)
      = dominant_size (strChars "X" 0 14 ++ strChars "abc" 0 12)
    ∧ identify_text_role (strChars "abc" 0 12 ++ strChars "X" 0 14)
        = identify_text_role (strChars "X" 0 14 ++ strChars "abc" 0 12) :=
  C9_dominant_deterministic _ _ (by decide) (by decide)

/-! ### Helper lemmas: chart deduplication -/

lemma dedup_charts_foldl (l : List ContentEntry) :
    ∀ (seen : List (ℚ × ℚ × ℚ × ℚ)) (acc : List ContentEntry),
      (l.foldl
        (fun (a : List (ℚ × ℚ × ℚ × ℚ) × List ContentEntry) ch =>
          if chartKey ch ∈ a.1 then a else (chartKey ch :: a.1, a.2 ++ [ch]))
        (seen, acc)).2
        = acc ++ keepFirstCharts seen l := by
  induction l with
  | nil => intro seen acc; simp [keepFirstCharts]
  | cons c cs ih =>
    intro seen acc
    simp only [List.foldl_cons]
    by_cases h : chartKey c ∈ seen
    · rw [if_pos h]
      simp [keepFirstCharts, h, ih]
    · rw [if_neg h]
      simp [keepFirstCharts, h, ih]

lemma dedup_charts_eq_keepFirst (charts : List ContentEntry) :
    deduplicate_charts charts = keepFirstCharts [] charts := by
  unfold deduplicate_charts
  rw [dedup_charts_foldl]
  simp

lemma keepFirstCharts_sublist (l : List ContentEntry) :
    ∀ seen, List.Sublist (keepFirstCharts seen l) l := by
  induction l with
  | nil => intro seen; simp [keepFirstCharts]
  | cons c cs ih =>
    intro seen
    unfold keepFirstCharts
    by_cases h : chartKey c ∈ seen
    · rw [if_pos h]
      exact List.Sublist.cons c (ih seen)
    · rw [if_neg h]
      exact List.Sublist.cons₂ c (ih _)

lemma dedup_charts_sublist (charts : List ContentEntry) :
    List.Sublist (deduplicate_charts charts) charts := by
  rw [dedup_charts_eq_keepFirst]
  exact keepFirstCharts_sublist charts []

lemma keepFirstCharts_keys_nodup (l : List ContentEntry) :
    ∀ seen, ((keepFirstCharts seen l).map chartKey).Nodup
      ∧ ∀ k ∈ (keepFirstCharts seen l).map chartKey, k ∉ seen := by
  induction l with
  | nil => intro seen; simp [keepFirstCharts]
  | cons c cs ih =>
    intro seen
    unfold keepFirstCharts
    by_cases h : chartKey c ∈ seen
    · rw [if_pos h]
      exact ih seen
    · rw [if_neg h]
      obtain ⟨ihn, ihs⟩ := ih (chartKey c :: seen)
      simp only [List.map_cons, List.nodup_cons]
      refine ⟨⟨?_, ihn⟩, ?_⟩
      · intro hmem
        exact ihs _ hmem (List.mem_cons_self _ _)
      · intro k hk
        rcases List.mem_cons.mp hk with h1 | h1
        · exact h1 ▸ h
        · intro hks
          exact ihs k h1 (List.mem_cons_of_mem _ hks)

lemma keepFirstCharts_covers (l : List ContentEntry) :
    ∀ seen, ∀ c ∈ l,
      chartKey c ∈ seen ∨ chartKey c ∈ (keepFirstCharts seen l).map chartKey := by
  induction l with
  | nil => intro seen c hc; exact absurd hc (List.not_mem_nil c)
  | cons a cs ih =>
    intro seen c hc
    unfold keepFirstCharts
    rcases List.mem_cons.mp hc with h1 | h1
    · subst h1
      by_cases h : chartKey c ∈ seen
      · exact Or.inl h
      · rw [if_neg h]
        exact Or.inr (by simp)
    · by_cases h : chartKey a ∈ seen
      · rw [if_pos h]
        exact ih seen c h1
      · rw [if_neg h]
        rcases ih (chartKey a :: seen) c h1 with h2 | h2
        · rcases List.mem_cons.mp h2 with h3 | h3
          · exact Or.inr (by simp [h3])
          · exact Or.inl h3
        · exact Or.inr (List.mem_cons_of_mem _ h2)

/-- C6: chart deduplication keeps, in encounter order, exactly the first
candidate of each rounded bounding box: the result equals the
keep-the-first-occurrence function, is a sublist of the input (later
duplicates are dropped, order preserved), its rounded bounding boxes are
pairwise distinct, and every candidate's rounded bounding box is still
represented. -/
theorem C6_chart_dedup (charts : List ContentEntry) :
    deduplicate_charts charts = keepFirstCharts [] charts
    ∧ List.Sublist (deduplicate_charts charts) charts
    ∧ ((deduplicate_charts charts).map chartKey).Nodup
    ∧ ∀ c ∈ charts, chartKey c ∈ (deduplicate_charts charts).map chartKey := by
  refine ⟨dedup_charts_eq_keepFirst charts, dedup_charts_sublist charts, ?_, ?_⟩
  · rw [dedup_charts_eq_keepFirst]
    exact (keepFirstCharts_keys_nodup charts []).1
  · intro c hc
    rw [dedup_charts_eq_keepFirst]
    rcases keepFirstCharts_covers charts [] c hc with h | h
    · exact absurd h (List.not_mem_nil _)
    · exact h

/-- Witness for C6: two image candidates on page 1 whose bounding boxes
`(0, 0, 10, 10)` and `(0.04, 0, 10, 10)` round to the same key at one
decimal place; the key of the dropped second candidate is still present,
carried by the kept first one. -/
theorem C6_witness :
    chartKey (chartEntry none none 1 (ImageBox.mk 0.04 0 10 10))
      ∈ (deduplicate_charts
          [chartEntry none none 1 (ImageBox.mk 0 0 10 10),
           chartEntry none none 1 (ImageBox.mk 0.04 0 10 10)]).map chartKey :=
  (C6_chart_dedup
    [chartEntry none none 1 (ImageBox.mk 0 0 10 10),
     chartEntry none none 1 (ImageBox.mk 0.04 0 10 10)]).2.2.2
    (chartEntry none none 1 (ImageBox.mk 0.04 0 10 10)) (by decide)

/-- C4: the Camelot engine is consulted first and its absence or failure
yields zero tables without aborting; the primitive extractor's grids are
consulted only when Camelot produced none (the result does not depend on
them otherwise); a grid is accepted exactly when some row has a non-empty
cell, so a single all-blank candidate grid yields zero table entries and a
single candidate grid with a non-empty cell yields exactly one. -/
theorem C4_table_fallback :
    (extract_tables_with_camelot CamelotOutcome.unavailable = []
      ∧ extract_tables_with_camelot CamelotOutcome.failure = [])
    ∧ (∀ g : Grid, gridAccepted g = true ↔ ∃ row ∈ g, ∃ cell ∈ row, cell ≠ "")
    ∧ (∀ (cam : CamelotOutcome) (native native2 : List Grid) (sec sub : Option String),
        extract_tables_with_camelot cam ≠ [] →
        pageTableEntries cam native sec sub = pageTableEntries cam native2 sec sub)
    ∧ (∀ (cam : CamelotOutcome) (native : List Grid) (sec sub : Option String),
        (pageTableEntries cam native sec sub).length =
          if (extract_tables_with_camelot cam).isEmpty
          then (native.filter gridAccepted).length
          else (extract_tables_with_camelot cam).length)
    ∧ (∀ (g : Grid) (sec sub : Option String),
        (pageTableEntries CamelotOutcome.unavailable [g] sec sub).length
          = if gridAccepted g then 1 else 0) := by
  refine ⟨⟨rfl, rfl⟩, ?_, ?_, ?_, ?_⟩
  · intro g
    constructor
    · intro h
      rw [gridAccepted, Bool.and_eq_true] at h
      obtain ⟨-, h4⟩ := h
      obtain ⟨row, hrow, h5⟩ := List.any_eq_true.mp h4
      obtain ⟨cell, hcell, h6⟩ := List.any_eq_true.mp h5
      refine ⟨row, hrow, cell, hcell, ?_⟩
      intro hcc
      rw [hcc] at h6
      exact absurd h6 (by decide)
    · rintro ⟨row, hrow, cell, hcell, hne⟩
      have hg : g.isEmpty = false := by simp [List.ne_nil_of_mem hrow]
      have hcf : cell.isEmpty = false := by
        cases hce : cell.isEmpty
        · rfl
        · exact absurd ((String.isEmpty_iff cell).mp hce) hne
      rw [gridAccepted, Bool.and_eq_true]
      refine ⟨by simp [hg], ?_⟩
      exact List.any_eq_true.mpr
        ⟨row, hrow, List.any_eq_true.mpr ⟨cell, hcell, by simp [hcf]⟩⟩
  · intro cam native native2 sec sub h
    have hie : (extract_tables_with_camelot cam).isEmpty = false := by simp [h]
    simp [pageTableEntries, hie]
  · intro cam native sec sub
    cases hc : (extract_tables_with_camelot cam).isEmpty
    · simp [pageTableEntries, hc]
    · have : extract_tables_with_camelot cam = [] := List.isEmpty_iff.mp hc
      simp [pageTableEntries, hc, this]
  · intro g sec sub
    cases hg : gridAccepted g
    · simp [pageTableEntries, extract_tables_with_camelot, hg]
    · simp [pageTableEntries, extract_tables_with_camelot, hg]

/-- Witness for C4: with Camelot returning one table, the native grids are
ignored (two different native lists give the same table entries). -/
theorem C4_witness :
    pageTableEntries (CamelotOutcome.tables [[["a"]]]) [[["x"]]] none none
      = pageTableEntries (CamelotOutcome.tables [[["a"]]]) [] none none :=
  C4_table_fallback.2.2.1 (CamelotOutcome.tables [[["a"]]]) [[["x"]]] [] none none (by decide)

/-- C8: when the input path does not exist, `parse_pdf` fails with the
file-not-found error whatever pages the extractor would have produced (no
page is read), and `main` writes no output file. -/
theorem C8_missing_input (pexists : String → Bool) (pages : String → List PageData)
    (cam : String → ℕ → CamelotOutcome) (input_pdf output_json : String)
    (h : pexists input_pdf = false) :
    parse_pdf (FS.mk pexists pages cam) input_pdf
      = Except.error ("File not found: " ++ input_pdf)
    ∧ (run_main (FS.mk pexists pages cam) input_pdf output_json).2 = none := by
  have hp : parse_pdf (FS.mk pexists pages cam) input_pdf
      = Except.error ("File not found: " ++ input_pdf) := by
    unfold parse_pdf
    simp [h]
  exact ⟨hp, by unfold run_main; rw [hp]⟩

/-- Witness for C8 at a concrete world where no path exists but the
extractor would yield one page. -/
theorem C8_witness :
    parse_pdf (FS.mk (fun _ => false)
        (fun _ => [PageData.mk [] [] []]) (fun _ _ => CamelotOutcome.unavailable)) "in.pdf"
      = Except.error ("File not found: " ++ "in.pdf")
    ∧ (run_main (FS.mk (fun _ => false)
        (fun _ => [PageData.mk [] [] []]) (fun _ _ => CamelotOutcome.unavailable))
        "in.pdf" "out.json").2 = none :=
  C8_missing_input (fun _ => false) (fun _ => [PageData.mk [] [] []])
    (fun _ _ => CamelotOutcome.unavailable) "in.pdf" "out.json" rfl

/-! ### Helper lemmas: number lines and the line loop -/

lemma digit_char_not_upper (c : Char) (h : pyIsDigitChar c = true) :
    pyIsUpperChar c = false := by
  simp [pyIsDigitChar, pyIsUpperChar] at h ⊢
  omega

lemma number_line_text_ne_empty (t : String) (h : is_number_line t = true) : t ≠ "" := by
  intro he
  rw [he] at h
  exact absurd h (by decide)

lemma number_line_not_upper (t : String) (h : is_number_line t = true) :
    pyIsUpper t = false := by
  rw [is_number_line, Bool.and_eq_true] at h
  have hall := List.all_eq_true.mp h.2
  have hany : t.data.any pyIsUpperChar = false := by
    rw [List.any_eq_false]
    intro c hc
    by_cases hskip : (c == ' ' || c == '-' || c == '.' || c == '%') = true
    · rcases Bool.or_eq_true _ _ ▸ hskip with h1 | h1
      · rcases Bool.or_eq_true _ _ ▸ h1 with h2 | h2
        · rcases Bool.or_eq_true _ _ ▸ h2 with h3 | h3
          · rw [show c = ' ' from beq_iff_eq.mp h3]; decide
          · rw [show c = '-' from beq_iff_eq.mp h3]; decide
        · rw [show c = '.' from beq_iff_eq.mp h2]; decide
      · rw [show c = '%' from beq_iff_eq.mp h1]; decide
    · have hskipf : (c == ' ' || c == '-' || c == '.' || c == '%') = false :=
        Bool.eq_false_iff.mpr hskip
      have hcl : c ∈ t.data.filter
          (fun c => !(c == ' ' || c == '-' || c == '.' || c == '%')) :=
        List.mem_filter.mpr ⟨hc, by simp [hskipf]⟩
      have hd := hall c hcl
      simp [digit_char_not_upper c hd]
  rw [pyIsUpper, hany]
  rfl

lemma number_line_header_cond_false (t : String) (h : is_number_line t = true) :
    ¬(pyIsUpper t = true ∧ (pyWords t).length ≤ 2 ∧ t.length < 15) := by
  rintro ⟨hu, -, -⟩
  rw [number_line_not_upper t h] at hu
  exact Bool.false_ne_true hu

lemma appendToLastText_append (pre : List ContentEntry) (e : ContentEntry) (t : String) :
    appendToLastText (pre ++ [e]) t
      = pre ++ [{ e with text := some (e.text.getD "" ++ " " ++ t) }] := by
  induction pre with
  | nil => rfl
  | cons a pre ih =>
    cases pre with
    | nil => simp [appendToLastText]
    | cons b pre2 =>
      simp only [List.cons_append, appendToLastText]
      rw [show (b :: pre2) ++ [e] = b :: (pre2 ++ [e]) from rfl] at ih
      simp [ih]

lemma appendToLastText_map_type (l : List ContentEntry) (t : String) :
    (appendToLastText l t).map (fun e => e.type) = l.map (fun e => e.type) := by
  induction l with
  | nil => rfl
  | cons a l ih =>
    cases l with
    | nil => rfl
    | cons b l2 => simp [appendToLastText, ih]

lemma appendToLastText_ne (l : List ContentEntry) (t : String) (h : l ≠ []) :
    appendToLastText l t ≠ l := by
  induction l with
  | nil => exact absurd rfl h
  | cons a l ih =>
    cases l with
    | nil =>
      intro heq
      have he := List.head_eq_of_cons_eq heq
      have ht := congrArg ContentEntry.text he
      cases hat : a.text with
      | none => rw [hat] at ht; exact Option.noConfusion ht
      | some s =>
        rw [hat] at ht
        have hs : s ++ " " ++ t = s := Option.some.inj ht
        have := congrArg String.length hs
        rw [String.length_append, String.length_append] at this
        have h1 : (" " : String).length = 1 := rfl
        omega
    | cons b l2 =>
      intro heq
      exact ih (List.cons_ne_nil b l2) (List.tail_eq_of_cons_eq heq)

lemma processLine_skip_empty (st : LineState) (line : ℤ × List PChar)
    (h : lineText line.2 = "") : processLine st line = st := by
  unfold processLine
  rw [if_pos h]

lemma processLine_skip_header (st : LineState) (line : ℤ × List PChar)
    (h : pyIsUpper (lineText line.2) = true ∧ (pyWords (lineText line.2)).length ≤ 2
      ∧ (lineText line.2).length < 15) : processLine st line = st := by
  unfold processLine
  by_cases h0 : lineText line.2 = ""
  · rw [if_pos h0]
  · rw [if_neg h0, if_pos h]

lemma processLine_merge (st : LineState) (line : ℤ × List PChar)
    (h1 : is_number_line (lineText line.2) = true) (h2 : st.page_content ≠ []) :
    processLine st line
      = { current_section := lineSec st line, current_sub_section := lineSub st line,
          page_content := appendToLastText st.page_content (lineText line.2) } := by
  unfold processLine
  rw [if_neg (number_line_text_ne_empty _ h1),
    if_neg (number_line_header_cond_false _ h1), if_pos ⟨h1, h2⟩]

lemma processLine_append (st : LineState) (line : ℤ × List PChar)
    (h0 : lineText line.2 ≠ "")
    (hc : ¬(pyIsUpper (lineText line.2) = true ∧ (pyWords (lineText line.2)).length ≤ 2
      ∧ (lineText line.2).length < 15))
    (hm : ¬(is_number_line (lineText line.2) = true ∧ st.page_content ≠ [])) :
    processLine st line
      = { current_section := lineSec st line, current_sub_section := lineSub st line,
          page_content := st.page_content
            ++ [paragraphEntry (lineSec st line) (lineSub st line) (lineText line.2) line.1] } := by
  unfold processLine
  rw [if_neg h0, if_neg hc, if_neg hm]

lemma processLines_number_run (ls : List (ℤ × List PChar)) :
    ∀ (sec sub : Option String) (pre : List ContentEntry) (e : ContentEntry) (txt : String),
      e.text = some txt →
      (∀ l ∈ ls, is_number_line (lineText l.2) = true) →
      (processLines ⟨sec, sub, pre ++ [e]⟩ ls).page_content
        = pre ++ [{ e with
            text := some (ls.foldl (fun acc l => acc ++ " " ++ lineText l.2) txt) }] := by
  induction ls with
  | nil =>
    intro sec sub pre e txt ht _
    rcases e with ⟨ty, se, su, te, ta, de, bb, tp⟩
    obtain rfl : te = some txt := ht
    rfl
  | cons l ls ih =>
    intro sec sub pre e txt ht hall
    have hl := hall l (List.mem_cons_self _ _)
    have hmerge := processLine_merge ⟨sec, sub, pre ++ [e]⟩ l hl (by simp)
    rw [appendToLastText_append, ht] at hmerge
    simp only [Option.getD_some] at hmerge
    show (processLines (processLine ⟨sec, sub, pre ++ [e]⟩ l) ls).page_content = _
    rw [hmerge]
    exact ih (lineSec ⟨sec, sub, pre ++ [e]⟩ l) (lineSub ⟨sec, sub, pre ++ [e]⟩ l) pre
      ({ e with text := some (txt ++ " " ++ lineText l.2) }) (txt ++ " " ++ lineText l.2) rfl
      (fun l2 hl2 => hall l2 (List.mem_cons_of_mem _ hl2))

/-- C3: a line is a number line exactly when removing spaces, hyphens,
periods and percent signs leaves a nonempty all-digit string; a run of
consecutive number lines after an existing entry merges each line's text,
in order, into that single anchor entry with one separating space and
creates no new entry; a number line with no previous entry becomes a new
entry of its own. -/
theorem C3_number_line_merge :
    (∀ t : String, is_number_line t = true ↔
      (t.data.filter (fun c => !(c == ' ' || c == '-' || c == '.' || c == '%')) ≠ []
        ∧ ∀ c ∈ t.data.filter (fun c => !(c == ' ' || c == '-' || c == '.' || c == '%')),
            pyIsDigitChar c = true))
    ∧ (∀ (ls : List (ℤ × List PChar)) (sec sub : Option String)
        (pre : List ContentEntry) (e : ContentEntry) (txt : String),
        e.text = some txt →
        (∀ l ∈ ls, is_number_line (lineText l.2) = true) →
        (processLines ⟨sec, sub, pre ++ [e]⟩ ls).page_content
          = pre ++ [{ e with
              text := some (ls.foldl (fun acc l => acc ++ " " ++ lineText l.2) txt) }]
        ∧ ((processLines ⟨sec, sub, pre ++ [e]⟩ ls).page_content).length
            = (pre ++ [e]).length)
    ∧ (∀ (line : ℤ × List PChar) (sec sub : Option String),
        is_number_line (lineText line.2) = true →
        (processLine ⟨sec, sub, []⟩ line).page_content
          = [paragraphEntry (processLine ⟨sec, sub, []⟩ line).current_section
              (processLine ⟨sec, sub, []⟩ line).current_sub_section
              (lineText line.2) line.1]) := by
  refine ⟨?_, ?_, ?_⟩
  · intro t
    rw [is_number_line, Bool.and_eq_true]
    constructor
    · rintro ⟨h1, h2⟩
      refine ⟨?_, List.all_eq_true.mp h2⟩
      intro he
      rw [he] at h1
      exact absurd h1 (by decide)
    · rintro ⟨h1, h2⟩
      refine ⟨?_, List.all_eq_true.mpr h2⟩
      have hcf : (t.data.filter
          (fun c => !(c == ' ' || c == '-' || c == '.' || c == '%'))).isEmpty = false := by
        simp only [List.isEmpty_eq_false_iff_exists_mem]
        obtain ⟨c, hc⟩ := List.exists_mem_of_ne_nil _ h1
        exact ⟨c, hc⟩
      rw [hcf]
      rfl
  · intro ls sec sub pre e txt ht hall
    have h := processLines_number_run ls sec sub pre e txt ht hall
    refine ⟨h, ?_⟩
    rw [h]
    simp
  · intro line sec sub h
    have ha := processLine_append ⟨sec, sub, []⟩ line (number_line_text_ne_empty _ h)
      (number_line_header_cond_false _ h) (by rintro ⟨-, hx⟩; exact hx rfl)
    rw [ha]
    rfl

/-- Witness for C3: the anchor paragraph `"Total revenue was"` followed by
the number lines `"1 234"` and `"77"`; both merge into the anchor, whose
text becomes `"Total revenue was 1 234 77"`, and the entry count stays 1. -/
theorem C3_witness :
    (processLines ⟨none, none, [paragraphEntry none none "Total revenue was" 4]⟩
        [(5, strChars "1 234" 5 10), (6, strChars "77" 6 10)]).page_content
      = [{ paragraphEntry none none "Total revenue was" 4 with
          text := some ([(5, strChars "1 234" 5 10), (6, strChars "77" 6 10)].foldl
            (fun acc l => acc ++ " " ++ lineText l.2) "Total revenue was") }]
    ∧ ((processLines ⟨none, none, [paragraphEntry none none "Total revenue was" 4]⟩
        [(5, strChars "1 234" 5 10), (6, strChars "77" 6 10)]).page_content).length
      = ([paragraphEntry none none "Total revenue was" 4] : List ContentEntry).length :=
  C3_number_line_merge.2.1 [(5, strChars "1 234" 5 10), (6, strChars "77" 6 10)]
    none none [] (paragraphEntry none none "Total revenue was" 4) "Total revenue was"
    rfl (by decide)

/-- C7 counterexample: a line consisting of one space character is dropped
entirely (the state, including the section slots and the content list, is
unchanged), yet its trimmed text `""` is not all-uppercase, so the claimed
"only if" direction fails for whitespace-only lines. -/
theorem C7_counterexample :
    processLine initLineState (0, strChars " " 0 10) = initLineState
    ∧ ¬(pyIsUpper (lineText (strChars " " 0 10)) = true
        ∧ (pyWords (lineText (strChars " " 0 10))).length ≤ 2
        ∧ (lineText (strChars " " 0 10)).length < 15) :=
  ⟨by decide, by decide⟩

/-- C7 (amended): for a line with nonempty trimmed text, the line is
dropped entirely — the line-loop state is left exactly unchanged — if and
only if the text is all-uppercase with at most two whitespace-separated
words and fewer than 15 characters; a line with empty trimmed text is also
dropped.  In particular `"SUMMARY"` is dropped and
`"Annual Financial Summary"` is retained as a paragraph entry. -/
theorem C7_header_filter (st : LineState) (line : ℤ × List PChar) :
    (lineText line.2 ≠ "" →
      (processLine st line = st ↔
        (pyIsUpper (lineText line.2) = true ∧ (pyWords (lineText line.2)).length ≤ 2
          ∧ (lineText line.2).length < 15)))
    ∧ (lineText line.2 = "" → processLine st line = st)
    ∧ processLine initLineState (5, strChars "SUMMARY" 5 10) = initLineState
    ∧ (processLine initLineState (3, strChars "Annual Financial Summary" 3 10)).page_content
        = [paragraphEntry none none "Annual Financial Summary" 3] := by
  refine ⟨?_, processLine_skip_empty st line, by decide, by decide⟩
  intro hne
  constructor
  · intro heq
    by_contra hcond
    by_cases hm : is_number_line (lineText line.2) = true ∧ st.page_content ≠ []
    · have h2 := processLine_merge st line hm.1 hm.2
      rw [heq] at h2
      have h3 := congrArg LineState.page_content h2
      exact appendToLastText_ne st.page_content (lineText line.2) hm.2 h3.symm
    · have h2 := processLine_append st line hne hcond hm
      rw [heq] at h2
      have h3 := congrArg LineState.page_content h2
      have h4 := congrArg List.length h3
      simp at h4
  · intro hcond
    exact processLine_skip_header st line hcond

/-- Witness for C7 at the line `"SUMMARY"`, which satisfies the filter. -/
theorem C7_witness :
    processLine initLineState (5, strChars "SUMMARY" 5 10) = initLineState ↔
      (pyIsUpper (lineText (strChars "SUMMARY" 5 10)) = true
        ∧ (pyWords (lineText (strChars "SUMMARY" 5 10))).length ≤ 2
        ∧ (lineText (strChars "SUMMARY" 5 10)).length < 15) :=
  (C7_header_filter initLineState (5, strChars "SUMMARY" 5 10)).1 (by decide)

lemma processLine_types (st : LineState) (line : ℤ × List PChar) :
    ((processLine st line).page_content).map (fun e => e.type)
        = st.page_content.map (fun e => e.type)
    ∨ ((processLine st line).page_content).map (fun e => e.type)
        = st.page_content.map (fun e => e.type) ++ ["paragraph"] := by
  by_cases h0 : lineText line.2 = ""
  · left
    rw [processLine_skip_empty st line h0]
  · by_cases hc : pyIsUpper (lineText line.2) = true ∧ (pyWords (lineText line.2)).length ≤ 2
        ∧ (lineText line.2).length < 15
    · left
      rw [processLine_skip_header st line hc]
    · by_cases hm : is_number_line (lineText line.2) = true ∧ st.page_content ≠ []
      · left
        rw [processLine_merge st line hm.1 hm.2]
        exact appendToLastText_map_type _ _
      · right
        rw [processLine_append st line h0 hc hm]
        simp [paragraphEntry]

lemma processLines_types (ls : List (ℤ × List PChar)) :
    ∀ st : LineState, (∀ e ∈ st.page_content, e.type = "paragraph") →
      ∀ e ∈ (processLines st ls).page_content, e.type = "paragraph" := by
  induction ls with
  | nil => intro st h e he; exact h e he
  | cons l ls ih =>
    intro st h e he
    refine ih (processLine st l) ?_ e he
    intro e2 he2
    have hmem : e2.type ∈ ((processLine st l).page_content).map (fun e => e.type) :=
      List.mem_map_of_mem _ he2
    rcases processLine_types st l with hm | hm
    · rw [hm] at hmem
      obtain ⟨y, hy, hty⟩ := List.mem_map.mp hmem
      rw [← hty]
      exact h y hy
    · rw [hm] at hmem
      rcases List.mem_append.mp hmem with h1 | h1
      · obtain ⟨y, hy, hty⟩ := List.mem_map.mp h1
        rw [← hty]
        exact h y hy
      · simpa using h1

lemma paragraphs_only (ls : List (ℤ × List PChar)) :
    ∀ e ∈ (processLines initLineState ls).page_content, e.type = "paragraph" :=
  processLines_types ls initLineState (fun e he => absurd he (List.not_mem_nil e))

/-- C10: every entry the line loop emits has type `"paragraph"` whatever
the line's classified role; a non-merged line of role `"section"`
(resp. `"sub_section"`) is emitted as a paragraph-typed entry whose section
(resp. sub-section) field is the line's own text. -/
theorem C10_entries_paragraph_typed :
    (∀ (ls : List (ℤ × List PChar)) (e : ContentEntry),
        e ∈ (processLines initLineState ls).page_content → e.type = "paragraph")
    ∧ (∀ (st : LineState) (line : ℤ × List PChar),
        lineText line.2 ≠ "" →
        ¬(pyIsUpper (lineText line.2) = true ∧ (pyWords (lineText line.2)).length ≤ 2
            ∧ (lineText line.2).length < 15) →
        ¬(is_number_line (lineText line.2) = true ∧ st.page_content ≠ []) →
        ∃ en : ContentEntry,
          (processLine st line).page_content = st.page_content ++ [en]
          ∧ en.type = "paragraph"
          ∧ en.text = some (lineText line.2)
          ∧ (identify_text_role line.2 = "section" → en.sect = some (lineText line.2))
          ∧ (identify_text_role line.2 = "sub_section" →
              en.sub_section = some (lineText line.2))) := by
  constructor
  · intro ls e he
    exact paragraphs_only ls e he
  · intro st line h0 hc hm
    refine ⟨paragraphEntry (lineSec st line) (lineSub st line) (lineText line.2) line.1,
      ?_, rfl, rfl, ?_, ?_⟩
    · rw [processLine_append st line h0 hc hm]
    · intro hrole
      simp [paragraphEntry, lineSec, hrole]
    · intro hrole
      have hns : identify_text_role line.2 ≠ "section" := by rw [hrole]; decide
      simp [paragraphEntry, lineSub, hrole, hns]

/-- Witness for C10: the size-16 line `"Heading One"` classifies as
`"section"` yet is emitted as a paragraph-typed entry carrying its own text
as section. -/
theorem C10_witness :
    ∃ en : ContentEntry,
      (processLine initLineState (7, strChars "Heading One" 7 16)).page_content
        = initLineState.page_content ++ [en]
      ∧ en.type = "paragraph"
      ∧ en.text = some (lineText (strChars "Heading One" 7 16))
      ∧ (identify_text_role (strChars "Heading One" 7 16) = "section" →
          en.sect = some (lineText (strChars "Heading One" 7 16)))
      ∧ (identify_text_role (strChars "Heading One" 7 16) = "sub_section" →
          en.sub_section = some (lineText (strChars "Heading One" 7 16))) :=
  C10_entries_paragraph_typed.2 initLineState (7, strChars "Heading One" 7 16)
    (by decide) (by decide) (by decide)

/-! ### Helper lemmas: stability of the final sort -/

lemma filter_orderedInsert (k : ℚ) (e : ContentEntry) (l : List ContentEntry) :
    (List.orderedInsert contentLE e l).filter (fun x => decide (sortKey x = k))
      = if sortKey e = k
        then e :: l.filter (fun x => decide (sortKey x = k))
        else l.filter (fun x => decide (sortKey x = k)) := by
  induction l with
  | nil =>
    by_cases h : sortKey e = k <;> simp [List.orderedInsert, h]
  | cons x xs ih =>
    rw [List.orderedInsert]
    by_cases hle : contentLE e x
    · rw [if_pos hle]
      by_cases h : sortKey e = k <;> by_cases hx : sortKey x = k <;>
        simp [List.filter_cons, h, hx]
    · rw [if_neg hle]
      have hlt : sortKey x < sortKey e := lt_of_not_le hle
      by_cases h : sortKey e = k
      · have hx : ¬ sortKey x = k := by
          rw [← h]
          exact ne_of_lt hlt
        simp [List.filter_cons, hx, ih, h]
      · by_cases hx : sortKey x = k <;> simp [List.filter_cons, hx, ih, h]

lemma filter_insertionSort (k : ℚ) (l : List ContentEntry) :
    (List.insertionSort contentLE l).filter (fun x => decide (sortKey x = k))
      = l.filter (fun x => decide (sortKey x = k)) := by
  induction l with
  | nil => rfl
  | cons a l ih =>
    rw [List.insertionSort, filter_orderedInsert]
    by_cases h : sortKey a = k <;> simp [List.filter_cons, h, ih]

/-- C1 (amended): a page's final `content` is a stable sort of the
paragraph-table-chart concatenation by the key "`top` when numeric, else
`1e9`": it is sorted under that key, it is a permutation of the unsorted
concatenation, entries of equal key keep their append order (the filter at
each key value is unchanged), and — provided every numeric `top` on the
page is below `1e9` — every entry lacking a numeric `top` comes after
every entry having one. -/
theorem C1_content_ordering (pd : PageData) (pn : ℕ) (cam : CamelotOutcome) :
    ((parsePage pd pn cam).content.Sorted contentLE)
    ∧ List.Perm (parsePage pd pn cam).content (pageEntriesUnsorted pd pn cam)
    ∧ (∀ k : ℚ,
        (parsePage pd pn cam).content.filter (fun e => decide (sortKey e = k))
          = (pageEntriesUnsorted pd pn cam).filter (fun e => decide (sortKey e = k)))
    ∧ ((∀ e ∈ pageEntriesUnsorted pd pn cam, e.top.getD 0 < 1000000000) →
        (parsePage pd pn cam).content.Pairwise (fun a b => a.top = none → b.top = none)) := by
  have hs := List.sorted_insertionSort contentLE (pageEntriesUnsorted pd pn cam)
  have hperm := List.perm_insertionSort contentLE (pageEntriesUnsorted pd pn cam)
  refine ⟨hs, hperm, fun k => filter_insertionSort k _, ?_⟩
  intro htop
  refine List.Pairwise.imp_of_mem ?_ hs
  intro a b ha hb hab hnone
  cases hb2 : b.top with
  | none => rfl
  | some t =>
    exfalso
    have hbmem : b ∈ pageEntriesUnsorted pd pn cam := hperm.subset hb
    have h1 := htop b hbmem
    rw [hb2] at h1
    simp only [Option.getD_some] at h1
    have h2 : sortKey a = 1000000000 := by simp [sortKey, hnone]
    have h3 : sortKey b = t := by simp [sortKey, hb2]
    have h4 : sortKey a ≤ sortKey b := hab
    rw [h2, h3] at h4
    exact absurd h4 (not_le.mpr h1)

/-- C1 counterexample: a page with one native table (all tables carry no
`top`) and one chart at `top = 2·10⁹` ends with the table *before* the
chart, because the sort key of a missing `top` is the finite sentinel
`1e9`, not `+∞`; an entry lacking a numeric `top` thus precedes an entry
having one, refuting the claim as stated. -/
theorem C1_counterexample :
    ((parsePage (PageData.mk [] [ImageBox.mk 0 2000000000 1 1] [[["x"]]]) 1
        CamelotOutcome.unavailable).content.map (fun e => (e.type, e.top))
      = [("table", none), ("chart", some 2000000000)])
    ∧ ¬ ((parsePage (PageData.mk [] [ImageBox.mk 0 2000000000 1 1] [[["x"]]]) 1
        CamelotOutcome.unavailable).content.Pairwise
          (fun a b => a.top = none → b.top = none)) :=
  ⟨by decide, by decide⟩

/-- Witness for C1 on a page whose tops all lie below the sentinel: one
table and one chart at `top = 50`; no entry without a numeric `top`
precedes one with a numeric `top`. -/
theorem C1_witness :
    (parsePage (PageData.mk [] [ImageBox.mk 0 50 10 60] [[["x"]]]) 1
        CamelotOutcome.unavailable).content.Pairwise
      (fun a b => a.top = none → b.top = none) :=
  (C1_content_ordering (PageData.mk [] [ImageBox.mk 0 50 10 60] [[["x"]]]) 1
    CamelotOutcome.unavailable).2.2.2 (by decide)

lemma mem_pageTableEntries {cam : CamelotOutcome} {native : List Grid}
    {sec sub : Option String} {e : ContentEntry}
    (he : e ∈ pageTableEntries cam native sec sub) :
    e.type = "table" ∧ e.sect = sec ∧ e.sub_section = sub := by
  simp only [pageTableEntries] at he
  rcases List.mem_append.mp he with h | h
  · obtain ⟨g, -, rfl⟩ := List.mem_map.mp h
    exact ⟨rfl, rfl, rfl⟩
  · by_cases hc : (extract_tables_with_camelot cam).isEmpty = true
    · rw [if_pos hc] at h
      obtain ⟨g, -, rfl⟩ := List.mem_map.mp h
      exact ⟨rfl, rfl, rfl⟩
    · rw [if_neg hc] at h
      exact absurd h (List.not_mem_nil e)

lemma mem_chartEntries {sec sub : Option String} {pn : ℕ} {imgs : List ImageBox}
    {e : ContentEntry}
    (he : e ∈ deduplicate_charts (imgs.map (chartEntry sec sub pn))) :
    e.type = "chart" ∧ e.sect = sec ∧ e.sub_section = sub := by
  have h2 : e ∈ imgs.map (chartEntry sec sub pn) := (dedup_charts_sublist _).subset he
  obtain ⟨img, -, rfl⟩ := List.mem_map.mp h2
  exact ⟨rfl, rfl, rfl⟩

/-- C5: both section slots start the page as `none`; a retained
`"section"` line installs its text as current section and clears the
sub-section, a `"sub_section"` line installs only the sub-section, a
`"paragraph"` line changes neither; and every table or chart entry of the
page carries the section state reached after the whole line loop. -/
theorem C5_section_tracking :
    (initLineState.current_section = none ∧ initLineState.current_sub_section = none)
    ∧ (∀ (st : LineState) (line : ℤ × List PChar),
        lineText line.2 ≠ "" →
        ¬(pyIsUpper (lineText line.2) = true ∧ (pyWords (lineText line.2)).length ≤ 2
          ∧ (lineText line.2).length < 15) →
        ((identify_text_role line.2 = "section" →
            (processLine st line).current_section = some (lineText line.2)
            ∧ (processLine st line).current_sub_section = none)
          ∧ (identify_text_role line.2 = "sub_section" →
            (processLine st line).current_section = st.current_section
            ∧ (processLine st line).current_sub_section = some (lineText line.2))
          ∧ (identify_text_role line.2 = "paragraph" →
            (processLine st line).current_section = st.current_section
            ∧ (processLine st line).current_sub_section = st.current_sub_section)))
    ∧ (∀ (pd : PageData) (pn : ℕ) (cam : CamelotOutcome) (e : ContentEntry),
        e ∈ (parsePage pd pn cam).content →
        e.type = "table" ∨ e.type = "chart" →
        e.sect = (processLines initLineState (pageLines pd.chars)).current_section
        ∧ e.sub_section
            = (processLines initLineState (pageLines pd.chars)).current_sub_section) := by
  refine ⟨⟨rfl, rfl⟩, ?_, ?_⟩
  · intro st line h0 hc
    have hsec : (processLine st line).current_section = lineSec st line := by
      by_cases hm : is_number_line (lineText line.2) = true ∧ st.page_content ≠ []
      · rw [processLine_merge st line hm.1 hm.2]
      · rw [processLine_append st line h0 hc hm]
    have hsub : (processLine st line).current_sub_section = lineSub st line := by
      by_cases hm : is_number_line (lineText line.2) = true ∧ st.page_content ≠ []
      · rw [processLine_merge st line hm.1 hm.2]
      · rw [processLine_append st line h0 hc hm]
    refine ⟨?_, ?_, ?_⟩
    · intro hrole
      rw [hsec, hsub]
      simp [lineSec, lineSub, hrole]
    · intro hrole
      have hns : identify_text_role line.2 ≠ "section" := by rw [hrole]; decide
      rw [hsec, hsub]
      simp [lineSec, lineSub, hrole, hns]
    · intro hrole
      have hns : identify_text_role line.2 ≠ "section" := by rw [hrole]; decide
      have hnu : identify_text_role line.2 ≠ "sub_section" := by rw [hrole]; decide
      rw [hsec, hsub]
      simp [lineSec, lineSub, hns, hnu]
  · intro pd pn cam e he htype
    have hperm := List.perm_insertionSort contentLE (pageEntriesUnsorted pd pn cam)
    have he2 : e ∈ pageEntriesUnsorted pd pn cam := hperm.subset he
    simp only [pageEntriesUnsorted] at he2
    rcases List.mem_append.mp he2 with h | h
    · rcases List.mem_append.mp h with h1 | h1
      · have hp := paragraphs_only (pageLines pd.chars) e h1
        rcases htype with ht | ht <;> rw [hp] at ht <;> exact absurd ht (by decide)
      · exact ⟨(mem_pageTableEntries h1).2.1, (mem_pageTableEntries h1).2.2⟩
    · exact ⟨(mem_chartEntries h).2.1, (mem_chartEntries h).2.2⟩

/-- Witness for C5: the single size-16 line `"Big Heading"` makes the final
section state `some "Big Heading"`, and the page's table entry (the native
grid `[["x"]]`, Camelot unavailable) carries exactly that state. -/
theorem C5_witness :
    (tableEntry (some "Big Heading") none [["x"]]).sect
      = (processLines initLineState (pageLines (strChars "Big Heading" 5 16))).current_section
    ∧ (tableEntry (some "Big Heading") none [["x"]]).sub_section
      = (processLines initLineState
          (pageLines (strChars "Big Heading" 5 16))).current_sub_section :=
  C5_section_tracking.2.2 (PageData.mk (strChars "Big Heading" 5 16) [] [[["x"]]]) 1
    CamelotOutcome.unavailable (tableEntry (some "Big Heading") none [["x"]])
    (by decide) (Or.inl (by decide))
